import Mathlib

/-!
Verification of the command-builder core of the bids-mriqc gear.

The definitions below are a shallow embedding of `src/utils/args.py`:
`get_inputs_and_args`, `validate` and `build_command`.  Python's dynamic
values that can occur in a configuration map are modelled by the tagged
union `PValue` (string, boolean, integer); a parameter map is an ordered
association list, reflecting Python dict insertion order.  Run-time type
errors that the Python code can raise (string concatenation with a
non-string in the verbose post-pass, index error of `command[-1]` on an
empty list) are modelled with `Except String`.
-/

/-- A Python configuration value: string, boolean or integer. -/
inductive PValue where
  | str (s : String)
  | bool (b : Bool)
  | int (n : Int)
deriving DecidableEq, Repr

/-- Python `str(v)` for the modelled values. -/
def str_of : PValue → String
  | .str s => s
  | .bool b => if b then "True" else "False"
  | .int n => toString n

/-- Helper for `pysplit`: scan the characters, accumulating the current
piece in reverse; a whitespace character closes the pending piece (if any). -/
def splitWSAux : List Char → List Char → List String
  | [], acc => if acc.isEmpty then [] else [String.mk acc.reverse]
  | c :: cs, acc =>
    if c.isWhitespace then
      (if acc.isEmpty then [] else [String.mk acc.reverse]) ++ splitWSAux cs []
    else splitWSAux cs (c :: acc)

/-- Python `s.split()`: split on runs of whitespace, discarding empty
pieces, so that the result never contains the empty string. -/
def pysplit (s : String) : List String := splitWSAux s.toList []

/-- The tokens appended for one `key: value` entry by the per-key branch of
`build_command` (src/utils/args.py lines 76-103), before the verbose
post-pass: a single-character key emits `-k` then the value's string form
when non-empty; a longer key emits `--k` for a true boolean and nothing for
a false one, a bare `--k` for an empty string form, `--k` followed by each
whitespace piece for a multi-piece string, and `--k=value` otherwise. -/
def emitEntry (k : String) (v : PValue) : List String :=
  if k.length = 1 then
    ("-" ++ k) :: (if (str_of v).length = 0 then [] else [str_of v])
  else
    match v with
    | .bool b => if b then ["--" ++ k] else []
    | _ =>
      if (str_of v).length = 0 then ["--" ++ k]
      else
        match v with
        | .str s =>
          if 1 < (pysplit s).length then ("--" ++ k) :: pysplit s
          else ["--" ++ k ++ "=" ++ s]
        | _ => ["--" ++ k ++ "=" ++ str_of v]

/-- Python `command[-1] = y`: replace the last element, or fail on an empty
list. -/
def setLast (l : List String) (y : String) : Option (List String) :=
  if l.isEmpty then none else some (l.dropLast ++ [y])

/-- Processing of a single map entry by `build_command`: append the generic
emission, then, when the key is `"verbose"`, overwrite the last token of the
command with `-` concatenated with the raw value (src/utils/args.py lines
104-108).  `'-' + v` is a Python `TypeError` when the value is not a string,
and `command[-1] = _` an `IndexError` on an empty command. -/
def stepEntry (cmd : List String) (k : String) (v : PValue) :
    Except String (List String) :=
  let c := cmd ++ emitEntry k v
  if k = "verbose" then
    match v with
    | .str s =>
      match setLast c ("-" ++ s) with
      | some c2 => .ok c2
      | none => .error "IndexError"
    | _ => .error "TypeError"
  else .ok c

/-- `build_command` (src/utils/args.py lines 63-108): fold `stepEntry` over
the parameter map in insertion order, starting from the already-prepared
command line. -/
def build_command : List String → List (String × PValue) →
    Except String (List String)
  | cmd, [] => .ok cmd
  | cmd, (k, v) :: rest => (stepEntry cmd k v).bind fun c => build_command c rest

/-- The spec's Command Builder contract
`build(programName, positionalArgs, parameterMap, passthroughArgs)`:
the initial command line is the program name, the positional arguments and
the passthrough tokens, and the parameter map is then processed by
`build_command`. -/
def build (prog : String) (positionals : List String)
    (params : List (String × PValue)) (passthrough : List String) :
    Except String (List String) :=
  build_command (prog :: (positionals ++ passthrough)) params

/-- The configuration filter of `get_inputs_and_args`
(src/utils/args.py lines 28-40): an entry is kept unless its key's first
five characters are `gear-` or its value is an empty string; non-string
values are always kept. -/
def keepEntry (e : String × PValue) : Bool :=
  if e.1.take 5 = "gear-" then false
  else
    match e.2 with
    | .str s => !(s == "")
    | _ => true

/-- `get_inputs_and_args` (src/utils/args.py lines 14-40), restricted to its
configuration-processing step: build the parameter map from the
configuration, in iteration order, keeping exactly the entries accepted by
`keepEntry`. -/
def get_inputs_and_args (config : List (String × PValue)) :
    List (String × PValue) :=
  config.filter keepEntry

/-- Python `v == 0` for the modelled values: true for the integer `0` and,
because Python booleans are integers, for `False`; strings never equal `0`. -/
def pyEqZero : PValue → Bool
  | .str _ => false
  | .bool b => !b
  | .int n => n == 0

/-- Python dict lookup `params[k]`, modelled on the association list (keys
of a dict are unique, so the first match is the entry). -/
def pyLookup (k : String) : List (String × PValue) → Option PValue
  | [] => none
  | (k2, v) :: rest => if k2 = k then some v else pyLookup k rest

/-- Python `del params[k]` on a dict, modelled as dropping every entry with
key `k` (a dict holds at most one). -/
def pyDel (k : String) (params : List (String × PValue)) :
    List (String × PValue) :=
  params.filter (fun e => !(e.1 == k))

/-- One guard of `validate`: when key `k` is present and its value compares
equal to `0`, delete it (src/utils/args.py lines 53-59). -/
def delIfZero (k : String) (params : List (String × PValue)) :
    List (String × PValue) :=
  match pyLookup k params with
  | some v => if pyEqZero v then pyDel k params else params
  | none => params

/-- `validate` (src/utils/args.py lines 43-60): drop `start-idx` and then
`stop-idx` when their value equals `0`. -/
def validate (params : List (String × PValue)) : List (String × PValue) :=
  delIfZero "stop-idx" (delIfZero "start-idx" params)

/-- The slice of `context.gear_dict` that `build_command` touches: the
prepared command line and the parameter map. -/
structure GearDict where
  command_line : List String
  param_list : List (String × PValue)
deriving DecidableEq, Repr

/-- `build_command` as a transform of the gear dictionary: the source reads
`gear_dict` once at entry, appends tokens to `command_line`
and performs no assignment to `param_list`. -/
def build_commandCtx (g : GearDict) : Except String GearDict :=
  (build_command g.command_line g.param_list).map
    fun c => { command_line := c, param_list := g.param_list }

theorem string_length_eq_zero {s : String} : s.length = 0 ↔ s = "" := by
  constructor
  · intro h
    cases s with
    | mk data =>
      simp only [String.length] at h
      rw [List.length_eq_zero] at h
      subst h
      rfl
  · intro h
    subst h
    rfl

theorem pysplit_empty : pysplit "" = [] := rfl

theorem emitEntry_str_ne_nil (k s : String) : emitEntry k (.str s) ≠ [] := by
  unfold emitEntry
  split
  · simp
  · simp only [str_of]
    split
    · simp
    · split
      · simp
      · simp

theorem setLast_append_of_ne_nil (l1 l2 : List String) (y : String)
    (h : l2 ≠ []) :
    setLast (l1 ++ l2) y = some (l1 ++ (l2.dropLast ++ [y])) := by
  have hne : l1 ++ l2 ≠ [] := by simp [h]
  simp [setLast, List.isEmpty_iff, hne, List.dropLast_append_of_ne_nil _ h,
    List.append_assoc]

theorem stepEntry_not_verbose (cmd : List String) {k : String} (v : PValue)
    (hk : k ≠ "verbose") :
    stepEntry cmd k v = .ok (cmd ++ emitEntry k v) := by
  simp [stepEntry, hk]

theorem stepEntry_verbose_str (cmd : List String) (s : String) :
    stepEntry cmd "verbose" (.str s) =
      .ok (cmd ++ ((emitEntry "verbose" (.str s)).dropLast ++ ["-" ++ s])) := by
  have h := setLast_append_of_ne_nil cmd (emitEntry "verbose" (.str s))
    ("-" ++ s) (emitEntry_str_ne_nil _ _)
  simp [stepEntry, h]

theorem stepEntry_verbose_single (cmd : List String) (s : String)
    (h : (pysplit s).length ≤ 1) :
    stepEntry cmd "verbose" (.str s) = .ok (cmd ++ ["-" ++ s]) := by
  rw [stepEntry_verbose_str]
  by_cases hs : s = ""
  · subst hs
    rfl
  · have h0 : ¬ s.length = 0 := fun hc => hs (string_length_eq_zero.mp hc)
    have h1 : ¬ 1 < (pysplit s).length := by omega
    have hv : ¬ ("verbose".length = 1) := by decide
    simp [emitEntry, str_of, h0, h1, hv]

theorem build_command_nil (cmd : List String) :
    build_command cmd [] = .ok cmd := rfl

theorem build_command_cons (cmd : List String) (k : String) (v : PValue)
    (rest : List (String × PValue)) :
    build_command cmd ((k, v) :: rest) =
      (stepEntry cmd k v).bind fun c => build_command c rest := rfl

theorem build_command_append (p q : List (String × PValue)) :
    ∀ cmd, build_command cmd (p ++ q) =
      (build_command cmd p).bind fun c => build_command c q := by
  induction p with
  | nil => intro cmd; rfl
  | cons e rest ih =>
    intro cmd
    obtain ⟨k, v⟩ := e
    rw [List.cons_append, build_command_cons, build_command_cons]
    cases stepEntry cmd k v with
    | ok c => simp [Except.bind, ih]
    | error msg => simp [Except.bind]

theorem build_command_middle {k : String} {v : PValue} {ts : List String}
    (hstep : ∀ c, stepEntry c k v = .ok (c ++ ts))
    (cmd : List String) (m1 m2 : List (String × PValue)) :
    build_command cmd (m1 ++ (k, v) :: m2) =
      (build_command cmd m1).bind fun c => build_command (c ++ ts) m2 := by
  rw [build_command_append]
  cases build_command cmd m1 with
  | ok c => simp [Except.bind, build_command_cons, hstep c]
  | error msg => simp [Except.bind]

theorem stepEntry_extends {cmd : List String} {k : String} {v : PValue}
    {c : List String} (h : stepEntry cmd k v = .ok c) : cmd <+: c := by
  by_cases hk : k = "verbose"
  · subst hk
    cases v with
    | str s =>
      rw [stepEntry_verbose_str] at h
      cases h
      exact List.prefix_append _ _
    | bool b => simp [stepEntry] at h
    | int n => simp [stepEntry] at h
  · rw [stepEntry_not_verbose _ _ hk] at h
    cases h
    exact List.prefix_append _ _

theorem build_command_extends :
    ∀ (params : List (String × PValue)) (cmd out : List String),
    build_command cmd params = .ok out → cmd <+: out := by
  intro params
  induction params with
  | nil =>
    intro cmd out h
    cases h
    exact List.prefix_rfl
  | cons e rest ih =>
    intro cmd out h
    obtain ⟨k, v⟩ := e
    rw [build_command_cons] at h
    cases hstep : stepEntry cmd k v with
    | ok c =>
      rw [hstep] at h
      exact (stepEntry_extends hstep).trans (ih c out h)
    | error msg => rw [hstep] at h; cases h

theorem build_command_ok_of_verbose_str :
    ∀ (params : List (String × PValue)) (cmd : List String),
    (∀ v, ("verbose", v) ∈ params → ∃ s, v = .str s) →
    ∃ out, build_command cmd params = .ok out := by
  intro params
  induction params with
  | nil => exact fun cmd _ => ⟨cmd, rfl⟩
  | cons e rest ih =>
    intro cmd h
    obtain ⟨k, v⟩ := e
    by_cases hk : k = "verbose"
    · subst hk
      obtain ⟨s, rfl⟩ := h v (List.mem_cons_self _ _)
      obtain ⟨out, hout⟩ := ih
        (cmd ++ ((emitEntry "verbose" (.str s)).dropLast ++ ["-" ++ s]))
        (fun v2 hv2 => h v2 (List.mem_cons_of_mem _ hv2))
      exact ⟨out, by rw [build_command_cons, stepEntry_verbose_str]; exact hout⟩
    · obtain ⟨out, hout⟩ := ih (cmd ++ emitEntry k v)
        (fun v2 hv2 => h v2 (List.mem_cons_of_mem _ hv2))
      exact ⟨out, by rw [build_command_cons, stepEntry_not_verbose _ _ hk]; exact hout⟩

/-- C1: the end-to-end scenario.  With program name `mriqc`, positionals
`/bids`, `/out`, `participant` and the parameter map inserting, in order,
`verbose="vvv"`, `n_cpus=4`, `float=true`, `modality="T1w T2w"`,
`fd_thres=""`, the builder returns exactly the token sequence
`mriqc /bids /out participant -vvv --n_cpus=4 --float --modality T1w T2w
--fd_thres`, in that order. -/
theorem build_end_to_end_scenario :
    build "mriqc" ["/bids", "/out", "participant"]
      [("verbose", .str "vvv"), ("n_cpus", .int 4), ("float", .bool true),
       ("modality", .str "T1w T2w"), ("fd_thres", .str "")] [] =
      .ok ["mriqc", "/bids", "/out", "participant", "-vvv", "--n_cpus=4",
           "--float", "--modality", "T1w", "T2w", "--fd_thres"] := rfl

/-- C2 counterexample: for a `verbose` value that splits into several
pieces, the post-pass only overwrites the last emitted piece, so the bare
token `--verbose` (which starts with `--verbose`) survives in the output,
contradicting the claim that no such token remains for any value. -/
theorem verbose_multi_piece_keeps_long_flag :
    build_command ["mriqc"] [("verbose", .str "v w")] =
      .ok ["mriqc", "--verbose", "v", "-v w"] ∧
    "--verbose" ∈ ["mriqc", "--verbose", "v", "-v w"] := ⟨rfl, by decide⟩

/-- C2 amended: when the `verbose` value is a string that whitespace-splits
into at most one piece, the entry contributes exactly the single token `-`
concatenated with the value, in place of the generic emission (so no
`--verbose` token arises from it).  For multi-piece values only the last
emitted piece is overwritten, and for non-string values the post-pass is a
Python TypeError. -/
theorem verbose_single_piece_override (cmd : List String)
    (m1 m2 : List (String × PValue)) (s : String)
    (h : (pysplit s).length ≤ 1) :
    build_command cmd (m1 ++ ("verbose", .str s) :: m2) =
      (build_command cmd m1).bind fun c =>
        build_command (c ++ ["-" ++ s]) m2 :=
  build_command_middle (fun c => stepEntry_verbose_single c s h) cmd m1 m2

theorem verbose_single_piece_override_witness :
    (pysplit "vvv").length ≤ 1 ∧
    build_command ["mriqc"] ([] ++ ("verbose", PValue.str "vvv") :: []) =
      (build_command ["mriqc"] []).bind fun c =>
        build_command (c ++ ["-" ++ "vvv"]) [] :=
  ⟨by decide, verbose_single_piece_override ["mriqc"] [] [] "vvv" (by decide)⟩

/-- C3 counterexample: the builder performs no contract validation.  An
empty program name is kept as token 0 without error, and an empty parameter
key is processed by the long-flag branch (here producing `--=x`); no
ContractViolation is signaled. -/
theorem empty_inputs_are_tolerated :
    build "" [] [] [] = .ok [""] ∧
    build "" [] [("", .str "x")] [] = .ok ["", "--=x"] := ⟨rfl, rfl⟩

/-- C3 amended: the builder never signals a contract violation for an empty
program name or an empty parameter key: whenever every `verbose` entry of
the map (if any) holds a string value, `build "" positionals params
passthrough` succeeds and returns a token sequence whose first token is the
empty program name. -/
theorem build_accepts_empty_program (positionals passthrough : List String)
    (params : List (String × PValue))
    (h : ∀ v, ("verbose", v) ∈ params → ∃ s, v = .str s) :
    ∃ out, build "" positionals params passthrough = .ok out ∧
      out.head? = some "" := by
  obtain ⟨out, hout⟩ :=
    build_command_ok_of_verbose_str params ("" :: (positionals ++ passthrough)) h
  refine ⟨out, hout, ?_⟩
  obtain ⟨t, ht⟩ := build_command_extends params _ out hout
  rw [← ht]
  rfl

theorem build_accepts_empty_program_witness :
    (∀ v, ("verbose", v) ∈ ([("", PValue.str "x")] : List (String × PValue)) →
      ∃ s, v = PValue.str s) ∧
    ∃ out, build "" ["/bids"] [("", PValue.str "x")] [] = .ok out ∧
      out.head? = some "" :=
  ⟨by intro v hv; simp at hv,
   build_accepts_empty_program ["/bids"] [] [("", PValue.str "x")]
     (by intro v hv; simp at hv)⟩

/-- C4 counterexample: the claim asserts that no token containing a
false-valued boolean key appears anywhere in the output, but another entry
may produce a token that contains that key as a substring: with
`ab = false` and `abc = "1"`, the output token `--abc=1` contains `ab`. -/
theorem false_boolean_key_substring_token :
    build_command ["p"] [("ab", .bool false), ("abc", .str "1")] =
      .ok ["p", "--abc=1"] ∧
    "--abc=1" = "--" ++ "ab" ++ "c=1" := ⟨rfl, rfl⟩

/-- C4 amended: a boolean entry at a key `k` of length at least 2 other
than `verbose` contributes no tokens when false, and exactly the single
token `--k` (with no value token following it) when true; tokens emitted
for other entries may still contain `k` as a substring, and a boolean
`verbose` entry is a Python TypeError. -/
theorem boolean_entry_emission (cmd : List String)
    (m1 m2 : List (String × PValue)) (k : String) (b : Bool)
    (hlen : 2 ≤ k.length) (hk : k ≠ "verbose") :
    build_command cmd (m1 ++ (k, .bool b) :: m2) =
      (build_command cmd m1).bind fun c =>
        build_command (c ++ if b then ["--" ++ k] else []) m2 := by
  apply build_command_middle (fun c => ?_) cmd m1 m2
  rw [stepEntry_not_verbose _ _ hk]
  have h1 : ¬ k.length = 1 := by omega
  simp [emitEntry, h1]

theorem boolean_entry_emission_witness :
    2 ≤ ("float" : String).length ∧ ("float" : String) ≠ "verbose" ∧
    build_command ["mriqc"] ([] ++ ("float", PValue.bool false) :: []) =
      (build_command ["mriqc"] []).bind fun c =>
        build_command (c ++ if false then ["--" ++ "float"] else []) [] :=
  ⟨by decide, by decide,
   boolean_entry_emission ["mriqc"] [] [] "float" false (by decide) (by decide)⟩

/-- C5 counterexample: for the key `verbose` with the multi-piece value
`"a b"`, the pieces are not all present in the output: the post-pass
overwrites the final piece `b` with `-a b`, so the claimed consecutive
sequence `--verbose a b` does not appear. -/
theorem multi_value_verbose_loses_piece :
    build_command ["p"] [("verbose", .str "a b")] =
      .ok ["p", "--verbose", "a", "-a b"] ∧
    "b" ∉ ["p", "--verbose", "a", "-a b"] := ⟨rfl, by decide⟩

/-- C5 amended: for every key `k` of length at least 2 other than `verbose`
whose value is a string that whitespace-splits into more than one piece,
the entry contributes exactly the token `--k` followed by each piece as its
own token, consecutively and in order, with no `=` form; for `k = verbose`
the post-pass overwrites the last piece. -/
theorem multi_value_entry_expansion (cmd : List String)
    (m1 m2 : List (String × PValue)) (k s : String)
    (hlen : 2 ≤ k.length) (hk : k ≠ "verbose")
    (hs : 1 < (pysplit s).length) :
    build_command cmd (m1 ++ (k, .str s) :: m2) =
      (build_command cmd m1).bind fun c =>
        build_command (c ++ ("--" ++ k) :: pysplit s) m2 := by
  apply build_command_middle (fun c => ?_) cmd m1 m2
  rw [stepEntry_not_verbose _ _ hk]
  have h1 : ¬ k.length = 1 := by omega
  have hne : ¬ s.length = 0 := by
    intro h0
    rw [string_length_eq_zero.mp h0] at hs
    simp [pysplit_empty] at hs
  simp [emitEntry, str_of, h1, hne, hs]

theorem multi_value_entry_expansion_witness :
    2 ≤ ("modality" : String).length ∧ ("modality" : String) ≠ "verbose" ∧
    1 < (pysplit "T1w T2w").length ∧
    build_command ["mriqc"] ([] ++ ("modality", PValue.str "T1w T2w") :: []) =
      (build_command ["mriqc"] []).bind fun c =>
        build_command (c ++ ("--" ++ "modality") :: pysplit "T1w T2w") [] :=
  ⟨by decide, by decide, by decide,
   multi_value_entry_expansion ["mriqc"] [] [] "modality" "T1w T2w"
     (by decide) (by decide) (by decide)⟩

/-- C6: a single-character key `k` contributes the token `-k`, immediately
followed by the value's string form as its own token exactly when that
string form is non-empty; moreover, when the whole build succeeds and the
string form is non-empty, the consecutive pair `-k`, value is an infix of
the output. -/
theorem short_flag_pairing (cmd : List String)
    (m1 m2 : List (String × PValue)) (k : String) (v : PValue)
    (hlen : k.length = 1) :
    (build_command cmd (m1 ++ (k, v) :: m2) =
      (build_command cmd m1).bind fun c =>
        build_command
          (c ++ ("-" ++ k) ::
            (if (str_of v).length = 0 then [] else [str_of v])) m2) ∧
    (∀ out, build_command cmd (m1 ++ (k, v) :: m2) = .ok out →
      (str_of v).length ≠ 0 → [("-" ++ k), str_of v] <:+: out) := by
  have hk : k ≠ "verbose" := by
    intro h
    rw [h] at hlen
    exact absurd hlen (by decide)
  have hmain : build_command cmd (m1 ++ (k, v) :: m2) =
      (build_command cmd m1).bind fun c =>
        build_command
          (c ++ ("-" ++ k) ::
            (if (str_of v).length = 0 then [] else [str_of v])) m2 := by
    apply build_command_middle (fun c => ?_) cmd m1 m2
    rw [stepEntry_not_verbose _ _ hk]
    simp [emitEntry, hlen]
  refine ⟨hmain, ?_⟩
  intro out hout hv
  rw [hmain] at hout
  cases hmid : build_command cmd m1 with
  | error msg => rw [hmid] at hout; cases hout
  | ok c =>
    rw [hmid] at hout
    simp only [Except.bind] at hout
    rw [if_neg hv] at hout
    obtain ⟨t, ht⟩ := build_command_extends _ _ _ hout
    refine ⟨c, t, ?_⟩
    rw [← ht]

theorem short_flag_pairing_witness :
    ("v" : String).length = 1 ∧
    (build_command ["mriqc"] ([] ++ ("v", PValue.int 3) :: []) =
      (build_command ["mriqc"] []).bind fun c =>
        build_command
          (c ++ ("-" ++ "v") ::
            (if (str_of (PValue.int 3)).length = 0 then []
             else [str_of (PValue.int 3)])) []) ∧
    (∀ out, build_command ["mriqc"] ([] ++ ("v", PValue.int 3) :: []) = .ok out →
      (str_of (PValue.int 3)).length ≠ 0 →
      [("-" ++ "v"), str_of (PValue.int 3)] <:+: out) :=
  ⟨by decide,
   (short_flag_pairing ["mriqc"] [] [] "v" (PValue.int 3) (by decide)).1,
   (short_flag_pairing ["mriqc"] [] [] "v" (PValue.int 3) (by decide)).2⟩

/-- C7 counterexample: for the key `verbose` with the empty-string value,
the claimed bare token `--verbose` is not in the output: the post-pass
overwrites it with `-`. -/
theorem empty_verbose_not_bare_flag :
    build_command ["p"] [("verbose", .str "")] = .ok ["p", "-"] ∧
    "--verbose" ∉ ["p", "-"] := ⟨rfl, by decide⟩

/-- C7 amended: for every key `k` of length at least 2 other than `verbose`
whose value is neither a boolean nor a multi-piece string, the entry
contributes exactly one token: the bare `--k` when the value's string form
is empty, and `--k=` followed by the string form otherwise; for
`k = verbose` the post-pass overwrites that token with `-` followed by the
raw value. -/
theorem long_scalar_entry_emission (cmd : List String)
    (m1 m2 : List (String × PValue)) (k : String) (v : PValue)
    (hlen : 2 ≤ k.length) (hk : k ≠ "verbose")
    (hb : ∀ b, v ≠ .bool b)
    (hs : ∀ s, v = .str s → (pysplit s).length ≤ 1) :
    build_command cmd (m1 ++ (k, v) :: m2) =
      (build_command cmd m1).bind fun c =>
        build_command
          (c ++ [if (str_of v).length = 0 then "--" ++ k
                 else "--" ++ k ++ "=" ++ str_of v]) m2 := by
  apply build_command_middle (fun c => ?_) cmd m1 m2
  rw [stepEntry_not_verbose _ _ hk]
  have h1 : ¬ k.length = 1 := by omega
  cases v with
  | bool b => exact absurd rfl (hb b)
  | str s =>
    have hsp : ¬ 1 < (pysplit s).length := by
      have := hs s rfl
      omega
    by_cases h0 : s = ""
    · subst h0
      simp [emitEntry, str_of, h1]
    · have hne : ¬ s.length = 0 :=
        fun hc => h0 (string_length_eq_zero.mp hc)
      simp [emitEntry, str_of, h1, hne, hsp]
  | int n =>
    simp only [emitEntry, str_of, if_neg h1]
    split
    · simp
    · simp

theorem long_scalar_entry_emission_witness :
    2 ≤ ("fd_thres" : String).length ∧ ("fd_thres" : String) ≠ "verbose" ∧
    (∀ b, PValue.str "" ≠ PValue.bool b) ∧
    (∀ s, PValue.str "" = PValue.str s → (pysplit s).length ≤ 1) ∧
    build_command ["mriqc"] ([] ++ ("fd_thres", PValue.str "") :: []) =
      (build_command ["mriqc"] []).bind fun c =>
        build_command
          (c ++ [if (str_of (PValue.str "")).length = 0 then "--" ++ "fd_thres"
                 else "--" ++ "fd_thres" ++ "=" ++ str_of (PValue.str "")]) [] :=
  ⟨by decide, by decide, (by intro b h; cases h),
   (by intro s h; cases h; decide),
   long_scalar_entry_emission ["mriqc"] [] [] "fd_thres" (PValue.str "")
     (by decide) (by decide) (by intro b h; cases h)
     (by intro s h; cases h; decide)⟩

/-- C8: the builder is deterministic and does not mutate the parameter map:
two invocations on gear dictionaries with identical command lines and
identical parameter maps return identical results, and a successful result
carries the caller's parameter map unchanged. -/
theorem build_command_deterministic_no_mutation (g1 g2 : GearDict)
    (hc : g1.command_line = g2.command_line)
    (hp : g1.param_list = g2.param_list) :
    build_commandCtx g1 = build_commandCtx g2 ∧
    (∀ g3, build_commandCtx g1 = .ok g3 → g3.param_list = g1.param_list) := by
  constructor
  · simp [build_commandCtx, hc, hp]
  · intro g3 h
    unfold build_commandCtx at h
    cases hb : build_command g1.command_line g1.param_list with
    | error msg => rw [hb] at h; cases h
    | ok c =>
      rw [hb] at h
      simp only [Except.map] at h
      cases h
      rfl

theorem build_command_deterministic_no_mutation_witness :
    (GearDict.mk ["mriqc"] [("n_cpus", PValue.int 4)]).command_line =
      (GearDict.mk ["mriqc"] [("n_cpus", PValue.int 4)]).command_line ∧
    (GearDict.mk ["mriqc"] [("n_cpus", PValue.int 4)]).param_list =
      (GearDict.mk ["mriqc"] [("n_cpus", PValue.int 4)]).param_list ∧
    (build_commandCtx (GearDict.mk ["mriqc"] [("n_cpus", PValue.int 4)]) =
      build_commandCtx (GearDict.mk ["mriqc"] [("n_cpus", PValue.int 4)]) ∧
    (∀ g3, build_commandCtx (GearDict.mk ["mriqc"] [("n_cpus", PValue.int 4)]) =
        .ok g3 →
      g3.param_list =
        (GearDict.mk ["mriqc"] [("n_cpus", PValue.int 4)]).param_list)) :=
  ⟨rfl, rfl,
   build_command_deterministic_no_mutation _ _ rfl rfl⟩

/-- C9: the parameter map assembled by `get_inputs_and_args` never holds a
string value with empty string form (so the builder's bare-flag branch for
empty string forms is unreachable from a string-valued configuration
entry), every key whose first five characters are `gear-` is dropped, and
configuration entries with an empty string value are dropped. -/
theorem config_string_values_nonempty (config : List (String × PValue)) :
    (∀ k s, (k, PValue.str s) ∈ get_inputs_and_args config →
      (str_of (PValue.str s)).length ≠ 0 ∧ k.take 5 ≠ "gear-") ∧
    (∀ k v, k.take 5 = "gear-" → (k, v) ∉ get_inputs_and_args config) ∧
    (∀ k, (k, PValue.str "") ∉ get_inputs_and_args config) := by
  refine ⟨?_, ?_, ?_⟩
  · intro k s hmem
    rw [get_inputs_and_args, List.mem_filter] at hmem
    obtain ⟨-, hkeep⟩ := hmem
    unfold keepEntry at hkeep
    by_cases hg : k.take 5 = "gear-"
    · simp [hg] at hkeep
    · simp only [hg, if_false] at hkeep
      simp only [Bool.not_eq_true', beq_eq_false_iff_ne, ne_eq] at hkeep
      refine ⟨?_, hg⟩
      simp only [str_of]
      intro h0
      exact hkeep (string_length_eq_zero.mp h0)
  · intro k v hg hmem
    rw [get_inputs_and_args, List.mem_filter] at hmem
    obtain ⟨-, hkeep⟩ := hmem
    unfold keepEntry at hkeep
    simp [hg] at hkeep
  · intro k hmem
    rw [get_inputs_and_args, List.mem_filter] at hmem
    obtain ⟨-, hkeep⟩ := hmem
    unfold keepEntry at hkeep
    by_cases hg : k.take 5 = "gear-"
    · simp [hg] at hkeep
    · simp [hg] at hkeep

theorem config_string_values_nonempty_witness :
    ("gear-dry-run", PValue.bool true) ∉
      get_inputs_and_args
        [("gear-dry-run", PValue.bool true), ("fd_thres", PValue.str ""),
         ("n_cpus", PValue.int 4)] ∧
    ("fd_thres", PValue.str "") ∉
      get_inputs_and_args
        [("gear-dry-run", PValue.bool true), ("fd_thres", PValue.str ""),
         ("n_cpus", PValue.int 4)] :=
  ⟨(config_string_values_nonempty _).2.1 "gear-dry-run" (PValue.bool true)
     (by decide),
   (config_string_values_nonempty _).2.2 "fd_thres"⟩

theorem pyLookup_eq_none_iff (k : String) :
    ∀ params : List (String × PValue),
    pyLookup k params = none ↔ ∀ v, (k, v) ∉ params := by
  intro params
  induction params with
  | nil => simp [pyLookup]
  | cons e rest ih =>
    obtain ⟨k2, v2⟩ := e
    by_cases hk : k2 = k
    · subst hk
      rw [pyLookup, if_pos rfl]
      constructor
      · intro h
        cases h
      · intro h
        exact absurd (List.mem_cons_self _ _) (h v2)
    · simp only [pyLookup, if_neg hk, ih]
      constructor
      · intro h v hv
        rcases List.mem_cons.mp hv with h1 | h1
        · exact hk (congrArg Prod.fst h1).symm
        · exact h v h1
      · intro h v hv
        exact h v (List.mem_cons_of_mem _ hv)

theorem pyLookup_some_mem {k : String} :
    ∀ {params : List (String × PValue)} {v : PValue},
    pyLookup k params = some v → (k, v) ∈ params := by
  intro params
  induction params with
  | nil => intro v h; cases h
  | cons e rest ih =>
    intro v h
    obtain ⟨k2, v2⟩ := e
    by_cases hk : k2 = k
    · subst hk
      rw [pyLookup, if_pos rfl] at h
      cases h
      exact List.mem_cons_self _ _
    · rw [pyLookup, if_neg hk] at h
      exact List.mem_cons_of_mem _ (ih h)

theorem nodup_key_unique {k : String} :
    ∀ {params : List (String × PValue)} {v1 v2 : PValue},
    (params.map Prod.fst).Nodup → (k, v1) ∈ params → (k, v2) ∈ params →
    v1 = v2 := by
  intro params
  induction params with
  | nil => intro v1 v2 _ h1; cases h1
  | cons e rest ih =>
    intro v1 v2 hnd h1 h2
    obtain ⟨k2, v⟩ := e
    rw [List.map_cons, List.nodup_cons] at hnd
    obtain ⟨hk2, hrest⟩ := hnd
    rcases List.mem_cons.mp h1 with ha | ha <;>
      rcases List.mem_cons.mp h2 with hb | hb
    · cases ha
      injection hb with hfst hsnd
      exact hsnd.symm
    · cases ha
      exact absurd (List.mem_map_of_mem Prod.fst hb) (by simpa using hk2)
    · cases hb
      exact absurd (List.mem_map_of_mem Prod.fst ha) (by simpa using hk2)
    · exact ih hrest ha hb

theorem delIfZero_eq_filter (k : String)
    (params : List (String × PValue))
    (hnd : (params.map Prod.fst).Nodup) :
    delIfZero k params =
      params.filter (fun e => !(e.1 == k && pyEqZero e.2)) := by
  unfold delIfZero
  cases hl : pyLookup k params with
  | none =>
    rw [pyLookup_eq_none_iff] at hl
    symm
    rw [List.filter_eq_self]
    intro e he
    obtain ⟨k2, v2⟩ := e
    by_cases hk : k2 = k
    · subst hk
      exact absurd he (hl v2)
    · simp [hk]
  | some v =>
    show (if pyEqZero v = true then pyDel k params else params) =
      params.filter (fun e => !(e.1 == k && pyEqZero e.2))
    by_cases hz : pyEqZero v = true
    · rw [if_pos hz]
      unfold pyDel
      apply List.filter_congr
      intro e he
      obtain ⟨k2, v2⟩ := e
      by_cases hk : k2 = k
      · subst hk
        have : v2 = v := nodup_key_unique hnd he (pyLookup_some_mem hl)
        subst this
        simp [hz]
      · simp [hk]
    · rw [if_neg hz]
      symm
      rw [List.filter_eq_self]
      intro e he
      obtain ⟨k2, v2⟩ := e
      by_cases hk : k2 = k
      · subst hk
        have : v2 = v := nodup_key_unique hnd he (pyLookup_some_mem hl)
        subst this
        simp [hz]
      · simp [hk]

theorem delIfZero_of_not_mem (k : String)
    (params : List (String × PValue)) (h : ∀ v, (k, v) ∉ params) :
    delIfZero k params = params := by
  unfold delIfZero
  rw [(pyLookup_eq_none_iff k params).mpr h]

/-- C10: on a parameter map with unique keys, `validate` returns exactly the
map with the `start-idx` and `stop-idx` entries removed when their value
compares equal to `0` (as in Python, the integer `0` and the boolean
`False`), every other entry kept unchanged, in order; a map containing
neither key is returned identical. -/
theorem validate_removes_zero_idx (params : List (String × PValue))
    (hnd : (params.map Prod.fst).Nodup) :
    validate params = params.filter
      (fun e => !((e.1 == "start-idx" || e.1 == "stop-idx") &&
        pyEqZero e.2)) ∧
    ((∀ v, ("start-idx", v) ∉ params) → (∀ v, ("stop-idx", v) ∉ params) →
      validate params = params) := by
  constructor
  · unfold validate
    rw [delIfZero_eq_filter _ _ hnd]
    have hnd2 : (((params.filter
        (fun e => !(e.1 == "start-idx" && pyEqZero e.2))).map
          Prod.fst)).Nodup :=
      (List.filter_sublist params).map Prod.fst |>.nodup hnd
    rw [delIfZero_eq_filter _ _ hnd2, List.filter_filter]
    apply List.filter_congr
    intro e _
    generalize (e.1 == "start-idx") = a
    generalize (e.1 == "stop-idx") = b
    generalize pyEqZero e.2 = z
    cases a <;> cases b <;> cases z <;> rfl
  · intro h1 h2
    unfold validate
    rw [delIfZero_of_not_mem _ _ h1, delIfZero_of_not_mem _ _ h2]

theorem validate_removes_zero_idx_witness :
    (([("start-idx", PValue.int 0), ("stop-idx", PValue.int 7),
       ("n_cpus", PValue.int 4)] :
        List (String × PValue)).map Prod.fst).Nodup ∧
    validate [("start-idx", PValue.int 0), ("stop-idx", PValue.int 7),
              ("n_cpus", PValue.int 4)] =
      [("start-idx", PValue.int 0), ("stop-idx", PValue.int 7),
       ("n_cpus", PValue.int 4)].filter
        (fun e => !((e.1 == "start-idx" || e.1 == "stop-idx") &&
          pyEqZero e.2)) :=
  ⟨by decide,
   (validate_removes_zero_idx
     [("start-idx", PValue.int 0), ("stop-idx", PValue.int 7),
      ("n_cpus", PValue.int 4)] (by decide)).1⟩
